import Mathlib

/-!
Shallow embedding of the ingestion/dedup/scoring/selection engine of the
Python-News-Automation repository (files `rss_collector.py`, `rss_config.py`,
`news_ranker.py`), together with theorems settling the specification claims.

Modelling conventions:
* SQLite rows of the `articles` table become the `Article` structure; the
  table itself is a `List Article` in insertion order.
* ISO-8601 timestamp strings (compared lexicographically by SQLite, which on
  well-formed ISO strings agrees with chronological order) are modelled as
  `Int` instants; `datetime.now() - timedelta(hours=h)` becomes `now - h`.
* The md5 hex digest used as the dedup fingerprint is modelled by its
  preimage `(title ++ "|" ++ link).toLower` (an injective stand-in: the
  claims only depend on equal inputs giving equal fingerprints).
* Python's substring test `kw in text` is `strContains text kw` below.
-/

/-- `startsWithChars needle hay`: `needle` is a prefix of `hay` (character lists). -/
def startsWithChars : List Char → List Char → Bool
  | [], _ => true
  | _ :: _, [] => false
  | a :: as, b :: bs => a == b && startsWithChars as bs

/-- Python's substring containment `needle in hay`, on character lists. -/
def containsChars (needle : List Char) : List Char → Bool
  | [] => startsWithChars needle []
  | b :: bs => startsWithChars needle (b :: bs) || containsChars needle bs

/-- Python's `needle in hay`, needle a keyword string, hay a character list. -/
def strContains (hay : List Char) (needle : String) : Bool :=
  containsChars needle.data hay

/-- Python's `str.lower()`, modelled characterwise. -/
def lowerChars (l : List Char) : List Char :=
  l.map Char.toLower

/-- Number of character positions of `hay` at which `needle` matches
(overlapping matches each count).  Used only to state the spec's
"every occurrence counts" reading of the scorer. -/
def countOccChars (needle : List Char) : List Char → Nat
  | [] => if startsWithChars needle [] then 1 else 0
  | b :: bs => (if startsWithChars needle (b :: bs) then 1 else 0) + countOccChars needle bs

/-- Occurrence count of keyword `needle` in character list `hay`. -/
def countOcc (hay : List Char) (needle : String) : Nat :=
  countOccChars needle.data hay

/-- `PRIORITY_KEYWORDS` from `rss_config.py`: tier keyword lists with scores. -/
def PRIORITY_KEYWORDS : List (List String × Nat) :=
  [ (["president", "biden", "trump", "white house", "congress", "senate",
      "supreme court", "election", "vote", "pentagon", "war", "russia",
      "china", "nuclear", "terrorism", "shooting", "bomb", "coup"], 10),
    (["economy", "inflation", "federal reserve", "stock market", "unemployment",
      "gas prices", "nato", "military", "fbi", "justice department", "governor",
      "mayor", "law", "bill", "impeach", "investigation"], 7),
    (["sports", "nfl", "nba", "super bowl", "olympics", "technology", "apple",
      "google", "meta", "tesla", "space", "nasa", "health", "covid", "weather",
      "hurricane", "earthquake", "wildfire"], 5) ]

/-- `US_KEYWORDS` from `rss_config.py`. -/
def US_KEYWORDS : List String :=
  ["usa", "u.s.", "united states", "america", "american", "washington", "new york",
   "california", "texas", "florida", "biden", "trump", "congress", "senate", "house",
   "governor", "mayor", "state", "federal", "fbi", "cia", "pentagon", "white house"]

/-- `EXCLUSION_KEYWORDS` from `rss_config.py`. -/
def EXCLUSION_KEYWORDS : List String :=
  ["kardashian", "celebrity", "hollywood", "gossip", "dating", "relationship",
   "instagram model", "tiktok", "viral video", "meme", "horoscope", "zodiac",
   "quiz", "sponsored", "advertisement"]

/-- `CATEGORY_KEYWORDS` from `rss_config.py`, in declaration order. -/
def CATEGORY_KEYWORDS : List (String × List String) :=
  [ ("Politics", ["president", "congress", "senate", "election", "vote", "bill", "law",
                  "politics", "biden", "trump", "governor", "democrat", "republican"]),
    ("Economy", ["economy", "inflation", "stock", "market", "fed", "federal reserve",
                 "unemployment", "jobs", "gdp", "recession", "trade"]),
    ("Technology", ["tech", "technology", "ai", "artificial intelligence", "apple", "google",
                    "meta", "tesla", "space", "nasa", "innovation"]),
    ("Sports", ["nfl", "nba", "mlb", "nhl", "super bowl", "world series", "olympics",
                "sports", "game", "championship"]),
    ("Justice", ["crime", "shooting", "court", "supreme court", "justice", "police",
                 "trial", "verdict", "fbi", "investigation"]),
    ("International", ["war", "russia", "china", "ukraine", "nato", "military", "conflict",
                       "foreign policy", "diplomacy"]),
    ("Health", ["health", "covid", "pandemic", "vaccine", "hospital", "medical"]),
    ("Environment", ["climate", "weather", "hurricane", "wildfire", "earthquake", "flood",
                     "environment", "epa"]) ]

/-- The lower-cased `f"{title} {description}"` text both text classifiers work on. -/
def articleText (title description : String) : List Char :=
  lowerChars (title.data ++ ' ' :: description.data)

/-- `RSSCollector._is_us_related`: any US keyword occurs as a substring
of the lower-cased text. -/
def is_us_related (text : List Char) : Bool :=
  US_KEYWORDS.any (fun kw => strContains (lowerChars text) kw)

/-- `RSSCollector._should_exclude`: any exclusion keyword occurs as a substring
of the lower-cased text. -/
def should_exclude (text : List Char) : Bool :=
  EXCLUSION_KEYWORDS.any (fun kw => strContains (lowerChars text) kw)

/-- `RSSCollector._calculate_priority`: for each tier, add the tier score once
for every tier keyword contained in the lower-cased `title description` text. -/
def calculate_priority (title description : String) : Nat :=
  let text := articleText title description
  PRIORITY_KEYWORDS.foldl
    (fun score td =>
      td.1.foldl (fun s kw => if strContains text kw then s + td.2 else s) score)
    0

/-- The scorer as the claim words it (spec 4.3): every *occurrence* of every
tier keyword contributes the tier weight.  Stated only for comparison with
`calculate_priority`. -/
def calculate_priority_occurrences (title description : String) : Nat :=
  let text := articleText title description
  PRIORITY_KEYWORDS.foldl
    (fun score td => score + td.2 * (td.1.map (fun kw => countOcc text kw)).sum)
    0

/-- Count of a category's keywords contained in `text`
(the `sum(1 for keyword in keywords if keyword in text)` of `_detect_category`). -/
def categoryHits (kws : List String) (text : List Char) : Nat :=
  kws.foldl (fun n kw => if strContains text kw then n + 1 else n) 0

/-- Python's `max(scores, key=scores.get)` over an insertion-ordered dict:
the first entry whose count is maximal (strictly greater counts replace). -/
def firstMaxFold (p : String × Nat) (rest : List (String × Nat)) : String × Nat :=
  rest.foldl (fun best q => if best.2 < q.2 then q else best) p

/-- `RSSCollector._detect_category`: keep categories with positive keyword
counts (in declaration order) and return the first one with the maximal
count; `"General"` when no keyword matches at all. -/
def detect_category (title description : String) : String :=
  let text := articleText title description
  let scores := (CATEGORY_KEYWORDS.map (fun ck => (ck.1, categoryHits ck.2 text))).filter
    (fun p => decide (0 < p.2))
  match scores with
  | [] => "General"
  | p :: rest => (firstMaxFold p rest).1

/-- Maximal count in a category score list (`0` when empty). -/
def maxCount : List (String × Nat) → Nat
  | [] => 0
  | p :: rest => max p.2 (maxCount rest)

/-- The classifier as the spec words it (spec 4.2): the category with the
highest count of its keywords present in the text, ties broken by earliest
declaration order, and `"General"` when nothing matches. -/
def classifierSpec (title description : String) : String :=
  let text := articleText title description
  let counts := CATEGORY_KEYWORDS.map (fun ck => (ck.1, categoryHits ck.2 text))
  if maxCount counts = 0 then "General"
  else
    match counts.find? (fun p => p.2 == maxCount counts) with
    | some p => p.1
    | none => "General"

/-- A row of the `articles` SQLite table (`RSSCollector._init_database`).
Integer flag columns become `Bool`; timestamp strings become `Int` instants. -/
structure Article where
  id : Nat
  article_hash : String
  title : String
  description : String
  link : String
  source : String
  category : String
  published_time : Int
  collected_time : Int
  priority_score : Nat
  is_us_related : Bool
  is_excluded : Bool
  selected_for_post : Bool
  posted : Bool
  deriving Repr, DecidableEq

/-- The spec's selection-state enum, derived from the two flag columns. -/
inductive SelState where
  | Unselected
  | Selected
  | Posted
  deriving Repr, DecidableEq

/-- A row's selection state: `posted = 1` means Posted, else the
`selected_for_post` flag decides between Selected and Unselected. -/
def selectionState (a : Article) : SelState :=
  if a.posted then SelState.Posted
  else if a.selected_for_post then SelState.Selected
  else SelState.Unselected

/-- `RSSCollector._generate_hash`: md5 of `f"{title}|{link}".lower()`, modelled
by the lower-cased combined string itself (see the header note). -/
def generate_hash (title link : String) : String :=
  ⟨lowerChars (title.data ++ '|' :: link.data)⟩

/-- Is a row with this fingerprint already stored? -/
def hashPresent (s : List Article) (h : String) : Bool :=
  s.any (fun a => a.article_hash == h)

/-- Number of stored rows carrying fingerprint `h`. -/
def countHash (s : List Article) (h : String) : Nat :=
  s.countP (fun a => a.article_hash == h)

/-- SQLite `AUTOINCREMENT`: one more than the largest id ever used. -/
def nextId (s : List Article) : Nat :=
  s.foldl (fun m a => max m a.id) 0 + 1

/-- A normalized feed entry about to be ingested (title/description/link). -/
structure Entry where
  title : String
  description : String
  link : String
  deriving Repr, DecidableEq

/-- The `INSERT OR IGNORE` at the heart of `RSSCollector.collect_feed`:
if a row with the entry's fingerprint exists the statement is ignored,
otherwise a fresh row is appended with the computed annotations and both
selection flags clear. -/
def upsert (s : List Article) (e : Entry) (source : String) (now : Int) : List Article :=
  let h := generate_hash e.title e.link
  if hashPresent s h then s
  else
    s ++ [{ id := nextId s
            article_hash := h
            title := e.title
            description := e.description
            link := e.link
            source := source
            category := detect_category e.title e.description
            published_time := now
            collected_time := now
            priority_score := calculate_priority e.title e.description
            is_us_related := is_us_related (e.title.data ++ ' ' :: e.description.data)
            is_excluded := should_exclude (e.title.data ++ ' ' :: e.description.data)
            selected_for_post := false
            posted := false }]

/-- `NewsRanker.mark_as_posted`: `UPDATE articles SET posted = 1 WHERE id IN ids`. -/
def mark_as_posted (s : List Article) (ids : List Nat) : List Article :=
  s.map (fun a => if a.id ∈ ids then { a with posted := true } else a)

/-- `NewsRanker._mark_as_selected`:
`UPDATE articles SET selected_for_post = 1 WHERE id IN ids`. -/
def mark_as_selected (s : List Article) (ids : List Nat) : List Article :=
  s.map (fun a => if a.id ∈ ids then { a with selected_for_post := true } else a)

/-- `NewsRanker.reset_selections`:
`UPDATE articles SET selected_for_post = 0 WHERE posted = 0`. -/
def reset_selections (s : List Article) : List Article :=
  s.map (fun a => if a.posted then a else { a with selected_for_post := false })

/-- `RSSCollector._clean_old_articles`:
`DELETE FROM articles WHERE collected_time < cutoff AND posted = 0`. -/
def clean_old_articles (s : List Article) (cutoff : Int) : List Article :=
  s.filter (fun a => !(decide (a.collected_time < cutoff) && !a.posted))

/-- Strict "ranks before" order of the candidate query:
`ORDER BY priority_score DESC, collected_time DESC`. -/
def ranksBefore (a b : Article) : Bool :=
  decide (b.priority_score < a.priority_score) ||
    (b.priority_score == a.priority_score && decide (b.collected_time < a.collected_time))

/-- Stable insertion into a list sorted by `ranksBefore`. -/
def insertRanked (a : Article) : List Article → List Article
  | [] => [a]
  | b :: bs => if ranksBefore b a then b :: insertRanked a bs else a :: b :: bs

/-- Stable sort by `(priority_score DESC, collected_time DESC)`, the order of
the candidate query (SQLite fixes no order among full ties; this embedding
keeps store order there). -/
def sortRanked : List Article → List Article
  | [] => []
  | a :: as => insertRanked a (sortRanked as)

/-- Rows satisfying the candidate `WHERE` clause of `get_top_stories`:
US-related, not excluded, selection flag clear, collected within the window. -/
def eligibleRows (s : List Article) (now : Int) (hours : Int) : List Article :=
  s.filter (fun a =>
    a.is_us_related && !a.is_excluded && !a.selected_for_post &&
      decide (now - hours ≤ a.collected_time))

/-- The candidate query of `get_top_stories`: eligible rows in rank order,
capped by `LIMIT 50`. -/
def fetchCandidates (s : List Article) (now : Int) (hours : Int) : List Article :=
  (sortRanked (eligibleRows s now hours)).take 50

/-- Stable insertion for the pass-2 sort (`key=priority_score, reverse=True`). -/
def insertPr (a : Article) : List Article → List Article
  | [] => [a]
  | b :: bs => if decide (a.priority_score < b.priority_score) then b :: insertPr a bs
               else a :: b :: bs

/-- Python's stable `list.sort(key=lambda x: x['priority_score'], reverse=True)`. -/
def sortPr : List Article → List Article
  | [] => []
  | a :: as => insertPr a (sortPr as)

/-- Pass 1 of `NewsRanker._select_diverse_stories`: walk the candidates,
keeping the first row of each category not yet represented; after an append
the loop returns as soon as `count` rows are selected. -/
def pass1 (count : Nat) : List Article → List String → List Article → List Article
  | [], _, sel => sel
  | a :: rest, used, sel =>
    if a.category ∈ used then pass1 count rest used sel
    else if count ≤ sel.length + 1 then sel ++ [a]
    else pass1 count rest (a.category :: used) (sel ++ [a])

/-- Number of distinct categories occurring in a candidate list and not yet
in `used` (recursion aligned with `pass1`; proved equal to a Finset card in
`newCats_nil_eq_card`). -/
def newCats : List Article → List String → Nat
  | [], _ => 0
  | a :: rest, used =>
    if a.category ∈ used then newCats rest used else 1 + newCats rest (a.category :: used)

/-- `NewsRanker._select_diverse_stories`: everything when the pool is small,
otherwise the diversity pass followed by the priority-ordered fill pass. -/
def select_diverse_stories (candidates : List Article) (count : Nat) : List Article :=
  if candidates.length ≤ count then candidates
  else
    let selected := pass1 count candidates [] []
    let remaining := candidates.filter (fun a => !(decide (a ∈ selected)))
    selected ++ (sortPr remaining).take (count - selected.length)

/-- The candidate list actually used by `get_top_stories`: the windowed query,
re-run with a fixed 48-hour window when the first result is empty. -/
def effectiveCandidates (s : List Article) (now : Int) (hours : Int) : List Article :=
  let c := fetchCandidates s now hours
  if c.isEmpty then fetchCandidates s now 48 else c

/-- The pure read phase of `NewsRanker.get_top_stories` (its first database
connection): query candidates, retry once on empty, pick the diverse subset. -/
def selectorReadPhase (s : List Article) (now : Int) (count : Nat) (hours : Int) :
    List Article :=
  select_diverse_stories (effectiveCandidates s now hours) count

/-- The write phase of `NewsRanker.get_top_stories` (its second database
connection): mark the chosen rows selected, skipped when nothing was chosen. -/
def selectorMarkPhase (s : List Article) (sel : List Article) : List Article :=
  if sel.isEmpty then s else mark_as_selected s (sel.map (fun a => a.id))

/-- `NewsRanker.get_top_stories`: returns the selected stories and the store
after marking them. The read and the mark are separate phases, exactly as the
two sqlite connections in the source. -/
def get_top_stories (s : List Article) (now : Int) (count : Nat) (hours : Int) :
    List Article × List Article :=
  let sel := selectorReadPhase s now count hours
  (sel, selectorMarkPhase s sel)

/-- A concrete store row used by the counterexamples: US-related, not
excluded, unselected, not posted. -/
def exRow (i : Nat) (cat : String) (pri : Nat) (ct : Int) : Article :=
  { id := i
    article_hash := "h"
    title := "t"
    description := "d"
    link := "l"
    source := "s"
    category := cat
    published_time := ct
    collected_time := ct
    priority_score := pri
    is_us_related := true
    is_excluded := false
    selected_for_post := false
    posted := false }

/-- 51 eligible rows of one category, in strictly decreasing priority order. -/
def storeC3 : List Article :=
  (List.range 51).map (fun i => exRow i "X" (100 - i) 100)

/-- 50 eligible Politics rows followed by one low-priority Sports row:
the `LIMIT 50` cap drops the only Sports candidate. -/
def storeC4 : List Article :=
  (List.range 50).map (fun i => exRow i "Politics" (100 - i) 100) ++ [exRow 50 "Sports" 0 100]

/-- One eligible row collected 30 hours before `now = 100`: outside a 6-hour
and a 12-hour window but inside the hard-coded 48-hour retry window. -/
def storeC7 : List Article :=
  [exRow 1 "X" 5 70]

/-- One eligible row; used to exhibit the Selector's read/mark race. -/
def storeC9 : List Article :=
  [exRow 1 "X" 5 100]

/-- A single row in state Unselected. -/
def storeC1 : List Article :=
  [exRow 1 "X" 5 100]

/-- A posted row and a selected-but-not-posted row, for witnesses. -/
def postedRow : Article :=
  { exRow 2 "X" 1 100 with posted := true, selected_for_post := true }

/-- A row in state Selected. -/
def selectedRow : Article :=
  { exRow 3 "X" 1 100 with selected_for_post := true }

/-- Store used by the C6 witness. -/
def storeC6 : List Article :=
  [postedRow, selectedRow]

/-- A row whose fingerprint is `generate_hash "A" "L"`. -/
def hashedRow : Article :=
  { exRow 1 "X" 5 100 with title := "A", link := "L", article_hash := generate_hash "A" "L" }

/-- Store used by the C10 witness. -/
def storeC10 : List Article :=
  [hashedRow]

/-- Two eligible rows of two categories, for the C3/C4 witnesses. -/
def storeW : List Article :=
  [exRow 1 "A" 5 100, exRow 2 "B" 3 100]


/-! ## Helper lemmas about the dedup store -/

theorem upsert_of_hashPresent (s : List Article) (e : Entry) (src : String) (now : Int)
    (hp : hashPresent s (generate_hash e.title e.link) = true) :
    upsert s e src now = s := by
  simp [upsert, hp]

theorem hashPresent_upsert_self (s : List Article) (e : Entry) (src : String) (now : Int) :
    hashPresent (upsert s e src now) (generate_hash e.title e.link) = true := by
  by_cases hp : hashPresent s (generate_hash e.title e.link) = true
  · rw [upsert_of_hashPresent s e src now hp]; exact hp
  · simp only [upsert, hp, if_false, Bool.not_eq_true] at *
    simp [hashPresent, List.any_append, hp]

theorem countHash_pos_of_hashPresent (s : List Article) (h : String)
    (hp : hashPresent s h = true) : 0 < countHash s h := by
  rw [countHash, List.countP_pos_iff]
  simpa [hashPresent, List.any_eq_true] using hp

theorem countHash_eq_zero_of_not_hashPresent (s : List Article) (h : String)
    (hp : hashPresent s h = false) : countHash s h = 0 := by
  rw [countHash, List.countP_eq_zero]
  intro a ha
  simp only [hashPresent, List.any_eq_false] at hp
  simpa using hp a ha

/-- CLAIM C10: when an upsert targets an already-present fingerprint, the
store is left completely unchanged (every field of every row), even when the
incoming entry carries different values; only new fingerprints create rows. -/
theorem claim_C10 (s : List Article) (e : Entry) (src : String) (now : Int)
    (hp : hashPresent s (generate_hash e.title e.link) = true) :
    upsert s e src now = s :=
  upsert_of_hashPresent s e src now hp

/-- Witness for C10: a stored row with fingerprint of ("A","L"); re-ingesting
("A","L") with a different description and source changes nothing. -/
theorem claim_C10_witness :
    upsert storeC10 { title := "A", description := "other", link := "L" } "othersrc" 7
      = storeC10 :=
  claim_C10 storeC10 { title := "A", description := "other", link := "L" } "othersrc" 7
    (by decide)

/-- CLAIM C5: upsert is idempotent on the (title, link) dedup key: under the
schema's uniqueness invariant, ingesting the same pair twice leaves exactly
one stored row with that fingerprint, and the second ingestion is a no-op. -/
theorem claim_C5 (s : List Article) (e : Entry) (src src2 : String) (now now2 : Int)
    (hinv : countHash s (generate_hash e.title e.link) ≤ 1) :
    upsert (upsert s e src now) e src2 now2 = upsert s e src now ∧
    countHash (upsert s e src now) (generate_hash e.title e.link) = 1 := by
  refine ⟨upsert_of_hashPresent _ e src2 now2 (hashPresent_upsert_self s e src now), ?_⟩
  by_cases hp : hashPresent s (generate_hash e.title e.link) = true
  · rw [upsert_of_hashPresent s e src now hp]
    have := countHash_pos_of_hashPresent s _ hp
    omega
  · have hp0 : hashPresent s (generate_hash e.title e.link) = false := by
      simpa using hp
    have h0 := countHash_eq_zero_of_not_hashPresent s _ hp0
    simp [upsert, hp0, countHash, List.countP_append, List.countP_cons] at h0 ⊢
    simpa [countHash] using h0

/-- Witness for C5: ingesting ("T","L") twice into the empty store. -/
theorem claim_C5_witness :
    upsert (upsert [] { title := "T", description := "D", link := "L" } "s" 1)
        { title := "T", description := "D", link := "L" } "s" 2
      = upsert [] { title := "T", description := "D", link := "L" } "s" 1 ∧
    countHash (upsert [] { title := "T", description := "D", link := "L" } "s" 1)
        (generate_hash "T" "L") = 1 :=
  claim_C5 [] { title := "T", description := "D", link := "L" } "s" "s" 1 2 (by decide)

/-! ## Lifecycle claims -/

theorem mark_as_posted_length (s : List Article) (ids : List Nat) :
    (mark_as_posted s ids).length = s.length := by
  simp [mark_as_posted]

theorem reset_selections_length (s : List Article) :
    (reset_selections s).length = s.length := by
  simp [reset_selections]

/-- COUNTEREXAMPLE to C1 as stated: the store holds one row in state
Unselected with id 1; `mark_as_posted [1]` does not leave it untouched but
moves it straight to Posted. -/
theorem claim_C1_counterexample :
    storeC1.map selectionState = [SelState.Unselected] ∧
    mark_as_posted storeC1 [1] ≠ storeC1 ∧
    (mark_as_posted storeC1 [1]).map selectionState = [SelState.Posted] :=
  ⟨by decide, by decide, by decide⟩

/-- CLAIM C1 (amended): `mark_as_posted` sets the posted flag of every row
whose id is listed — moving it to Posted whatever its current state, also
from Unselected — leaves every row whose id is not listed completely
untouched, and calling it again on the same ids is idempotent and not an
error. -/
theorem claim_C1 (s : List Article) (ids : List Nat) :
    mark_as_posted (mark_as_posted s ids) ids = mark_as_posted s ids ∧
    ∀ i : Nat, ∀ h : i < s.length,
      ((s.get ⟨i, h⟩).id ∈ ids →
        selectionState ((mark_as_posted s ids).get
          ⟨i, by rw [mark_as_posted_length]; exact h⟩) = SelState.Posted) ∧
      ((s.get ⟨i, h⟩).id ∉ ids →
        (mark_as_posted s ids).get ⟨i, by rw [mark_as_posted_length]; exact h⟩
          = s.get ⟨i, h⟩) := by
  constructor
  · simp only [mark_as_posted, List.map_map]
    apply List.map_congr_left
    intro a _
    by_cases hid : a.id ∈ ids <;> simp [Function.comp, hid]
  · intro i h
    have hg : (mark_as_posted s ids).get ⟨i, by rw [mark_as_posted_length]; exact h⟩
        = if (s.get ⟨i, h⟩).id ∈ ids then { s.get ⟨i, h⟩ with posted := true }
          else s.get ⟨i, h⟩ := by
      simp [mark_as_posted]
    constructor
    · intro hid
      rw [hg, if_pos hid]
      simp [selectionState]
    · intro hid
      rw [hg, if_neg hid]

/-- Witness for C1: marking ids [2,3] twice equals marking once, and the
Selected row with id 3 ends in state Posted. -/
theorem claim_C1_witness :
    mark_as_posted (mark_as_posted storeC6 [2, 3]) [2, 3] = mark_as_posted storeC6 [2, 3] ∧
    selectionState ((mark_as_posted storeC6 [2, 3]).get ⟨1, by decide⟩) = SelState.Posted :=
  ⟨(claim_C1 storeC6 [2, 3]).1,
   by simpa using ((claim_C1 storeC6 [2, 3]).2 1 (by decide)).1 (by decide)⟩

/-- CLAIM C6: Posted is terminal — a Posted row is untouched by
`reset_selections` and survives `clean_old_articles` whatever the cutoff,
while every Selected-but-not-Posted row reverts to Unselected. -/
theorem claim_C6 (s : List Article) (i : Nat) (h : i < s.length) (cutoff : Int) :
    ((s.get ⟨i, h⟩).posted = true →
        (reset_selections s).get ⟨i, by rw [reset_selections_length]; exact h⟩ = s.get ⟨i, h⟩ ∧
        s.get ⟨i, h⟩ ∈ clean_old_articles s cutoff) ∧
    ((s.get ⟨i, h⟩).selected_for_post = true → (s.get ⟨i, h⟩).posted = false →
        selectionState ((reset_selections s).get
          ⟨i, by rw [reset_selections_length]; exact h⟩) = SelState.Unselected) := by
  have hg : (reset_selections s).get ⟨i, by rw [reset_selections_length]; exact h⟩
      = if (s.get ⟨i, h⟩).posted then s.get ⟨i, h⟩
        else { s.get ⟨i, h⟩ with selected_for_post := false } := by
    simp [reset_selections]
  constructor
  · intro hposted
    refine ⟨by rw [hg, if_pos hposted], ?_⟩
    rw [clean_old_articles, List.mem_filter]
    refine ⟨List.get_mem s i h, ?_⟩
    rw [hposted]
    simp
  · intro hsel hpost
    rw [hg, if_neg (by rw [hpost]; exact Bool.false_ne_true)]
    simp only [selectionState]
    rw [if_neg (by simpa using hpost), if_neg (by simp)]

/-- Witness for C6: the Posted row of `storeC6` survives a reset and a purge
with a cutoff far past its collection time; the Selected row reverts. -/
theorem claim_C6_witness :
    (reset_selections storeC6).get ⟨0, by decide⟩ = storeC6.get ⟨0, by decide⟩ ∧
    storeC6.get ⟨0, by decide⟩ ∈ clean_old_articles storeC6 200 ∧
    selectionState ((reset_selections storeC6).get ⟨1, by decide⟩) = SelState.Unselected :=
  ⟨((claim_C6 storeC6 0 (by decide) 200).1 (by decide)).1,
   ((claim_C6 storeC6 0 (by decide) 200).1 (by decide)).2,
   (claim_C6 storeC6 1 (by decide) 200).2 (by decide) (by decide)⟩

/-! ## Selector retry (C7) -/

theorem select_diverse_nil (count : Nat) : select_diverse_stories [] count = [] := by
  simp [select_diverse_stories]

/-- COUNTEREXAMPLE to C7 as stated: with a 6-hour window both the window and
its double (12 hours) hold no candidate, so under the claim the Selector
would return an empty result; the code instead retries with a fixed 48-hour
window and returns a story. -/
theorem claim_C7_counterexample :
    fetchCandidates storeC7 100 6 = [] ∧
    fetchCandidates storeC7 100 12 = [] ∧
    (get_top_stories storeC7 100 5 6).1 ≠ [] :=
  ⟨by decide, by decide, by decide⟩

/-- CLAIM C7 (amended): when the candidate query over the given window is
empty the Selector retries exactly once with a fixed 48-hour window (the
double of the default 24-hour window only); if that retry is also empty it
returns an empty result, leaves the store unmodified and raises no error. -/
theorem claim_C7 (s : List Article) (now : Int) (count : Nat) (hours : Int)
    (hempty : fetchCandidates s now hours = []) :
    (get_top_stories s now count hours).1 =
      select_diverse_stories (fetchCandidates s now 48) count ∧
    (fetchCandidates s now 48 = [] →
      (get_top_stories s now count hours).1 = [] ∧
      (get_top_stories s now count hours).2 = s) := by
  constructor
  · simp [get_top_stories, selectorReadPhase, effectiveCandidates, hempty]
  · intro h48
    simp [get_top_stories, selectorReadPhase, selectorMarkPhase, effectiveCandidates,
      hempty, h48, select_diverse_nil]

theorem find?_cons_pos {α : Type} (p : α → Bool) (a : α) (l : List α) (h : p a = true) :
    (a :: l).find? p = some a :=
  List.find?_cons_of_pos l h

theorem find?_cons_neg {α : Type} (p : α → Bool) (a : α) (l : List α) (h : p a = false) :
    (a :: l).find? p = l.find? p :=
  List.find?_cons_of_neg l (by simp [h])

/-! ## Sorting permutation lemmas -/

theorem insertRanked_perm (a : Article) (l : List Article) :
    (insertRanked a l).Perm (a :: l) := by
  induction l with
  | nil => exact List.Perm.refl _
  | cons b bs ih =>
    rw [insertRanked]
    by_cases hr : ranksBefore b a = true
    · rw [if_pos hr]
      exact List.Perm.trans (List.Perm.cons b ih) (List.Perm.swap a b bs)
    · rw [if_neg hr]

theorem sortRanked_perm (l : List Article) : (sortRanked l).Perm l := by
  induction l with
  | nil => exact List.Perm.refl _
  | cons a as ih =>
    rw [sortRanked]
    exact List.Perm.trans (insertRanked_perm a (sortRanked as)) (List.Perm.cons a ih)

theorem insertPr_perm (a : Article) (l : List Article) :
    (insertPr a l).Perm (a :: l) := by
  induction l with
  | nil => exact List.Perm.refl _
  | cons b bs ih =>
    rw [insertPr]
    by_cases hr : decide (a.priority_score < b.priority_score) = true
    · rw [if_pos hr]
      exact List.Perm.trans (List.Perm.cons b ih) (List.Perm.swap a b bs)
    · rw [if_neg hr]

theorem sortPr_perm (l : List Article) : (sortPr l).Perm l := by
  induction l with
  | nil => exact List.Perm.refl _
  | cons a as ih =>
    rw [sortPr]
    exact List.Perm.trans (insertPr_perm a (sortPr as)) (List.Perm.cons a ih)

theorem sortRanked_length (l : List Article) : (sortRanked l).length = l.length :=
  (sortRanked_perm l).length_eq

theorem sortPr_length (l : List Article) : (sortPr l).length = l.length :=
  (sortPr_perm l).length_eq

theorem fetchCandidates_length (s : List Article) (now hours : Int) :
    (fetchCandidates s now hours).length = min 50 (eligibleRows s now hours).length := by
  rw [fetchCandidates, List.length_take, sortRanked_length]

/-! ## Pass-1 invariants of the diversity algorithm -/

theorem pass1_length_le (count : Nat) :
    ∀ (rest : List Article) (used : List String) (sel : List Article),
      sel.length < count → (pass1 count rest used sel).length ≤ count := by
  intro rest
  induction rest with
  | nil =>
    intro used sel h
    simp only [pass1]
    omega
  | cons a rest ih =>
    intro used sel h
    simp only [pass1]
    by_cases hc : a.category ∈ used
    · rw [if_pos hc]
      exact ih used sel h
    · rw [if_neg hc]
      by_cases hcount : count ≤ sel.length + 1
      · rw [if_pos hcount]
        simp only [List.length_append, List.length_cons, List.length_nil]
        omega
      · rw [if_neg hcount]
        apply ih
        simp only [List.length_append, List.length_cons, List.length_nil]
        omega

theorem pass1_length_eq (count : Nat) :
    ∀ (rest : List Article) (used : List String) (sel : List Article),
      sel.length < count → count ≤ sel.length + newCats rest used →
      (pass1 count rest used sel).length = count := by
  intro rest
  induction rest with
  | nil =>
    intro used sel h1 h2
    simp only [newCats] at h2
    simp only [pass1]
    omega
  | cons a rest ih =>
    intro used sel h1 h2
    simp only [pass1]
    by_cases hc : a.category ∈ used
    · rw [if_pos hc]
      apply ih used sel h1
      simp only [newCats, if_pos hc] at h2
      exact h2
    · rw [if_neg hc]
      by_cases hcount : count ≤ sel.length + 1
      · rw [if_pos hcount]
        simp only [List.length_append, List.length_cons, List.length_nil]
        omega
      · rw [if_neg hcount]
        simp only [newCats, if_neg hc] at h2
        apply ih (a.category :: used) (sel ++ [a])
        · simp only [List.length_append, List.length_cons, List.length_nil]
          omega
        · simp only [List.length_append, List.length_cons, List.length_nil]
          omega

theorem pass1_subset (count : Nat) :
    ∀ (rest : List Article) (used : List String) (sel : List Article) (x : Article),
      x ∈ pass1 count rest used sel → x ∈ sel ∨ x ∈ rest := by
  intro rest
  induction rest with
  | nil =>
    intro used sel x hx
    simp only [pass1] at hx
    exact Or.inl hx
  | cons a rest ih =>
    intro used sel x hx
    simp only [pass1] at hx
    by_cases hc : a.category ∈ used
    · rw [if_pos hc] at hx
      rcases ih used sel x hx with h | h
      · exact Or.inl h
      · exact Or.inr (List.mem_cons_of_mem a h)
    · rw [if_neg hc] at hx
      by_cases hcount : count ≤ sel.length + 1
      · rw [if_pos hcount] at hx
        rcases List.mem_append.mp hx with h | h
        · exact Or.inl h
        · simp only [List.mem_singleton] at h
          exact Or.inr (h ▸ List.mem_cons_self ..)
      · rw [if_neg hcount] at hx
        rcases ih (a.category :: used) (sel ++ [a]) x hx with h | h
        · rcases List.mem_append.mp h with h2 | h2
          · exact Or.inl h2
          · simp only [List.mem_singleton] at h2
            exact Or.inr (h2 ▸ List.mem_cons_self ..)
        · exact Or.inr (List.mem_cons_of_mem a h)

theorem pass1_cats_nodup (count : Nat) :
    ∀ (rest : List Article) (used : List String) (sel : List Article),
      (sel.map (fun a => a.category)).Nodup →
      (∀ a ∈ sel, a.category ∈ used) →
      ((pass1 count rest used sel).map (fun a => a.category)).Nodup := by
  intro rest
  induction rest with
  | nil =>
    intro used sel h1 h2
    simpa only [pass1] using h1
  | cons a rest ih =>
    intro used sel h1 h2
    simp only [pass1]
    by_cases hc : a.category ∈ used
    · rw [if_pos hc]
      exact ih used sel h1 h2
    · rw [if_neg hc]
      have hnotin : a.category ∉ sel.map (fun a => a.category) := by
        intro hmem
        rcases List.mem_map.mp hmem with ⟨b, hb, hbc⟩
        exact hc (hbc ▸ h2 b hb)
      have h1b : ((sel ++ [a]).map (fun a => a.category)).Nodup := by
        rw [List.map_append]
        simp only [List.map_cons, List.map_nil]
        rw [List.nodup_append]
        exact ⟨h1, List.nodup_singleton _, by simpa using hnotin⟩
      by_cases hcount : count ≤ sel.length + 1
      · rw [if_pos hcount]
        exact h1b
      · rw [if_neg hcount]
        apply ih (a.category :: used) (sel ++ [a]) h1b
        intro b hb
        rcases List.mem_append.mp hb with h | h
        · exact List.mem_cons_of_mem _ (h2 b h)
        · simp only [List.mem_singleton] at h
          rw [h]
          exact List.mem_cons_self ..

theorem pass1_first (count : Nat) (C : List Article) :
    ∀ (rest : List Article) (used : List String) (sel : List Article) (pre : List Article),
      C = pre ++ rest →
      (∀ b ∈ pre, b.category ∈ used) →
      (∀ a ∈ sel, C.find? (fun b => b.category == a.category) = some a) →
      ∀ a ∈ pass1 count rest used sel,
        C.find? (fun b => b.category == a.category) = some a := by
  intro rest
  induction rest with
  | nil =>
    intro used sel pre hC hpre hsel a ha
    simp only [pass1] at ha
    exact hsel a ha
  | cons x rest ih =>
    intro used sel pre hC hpre hsel a ha
    simp only [pass1] at ha
    by_cases hc : x.category ∈ used
    · rw [if_pos hc] at ha
      refine ih used sel (pre ++ [x]) (by rw [hC]; simp) ?_ hsel a ha
      intro b hb
      rcases List.mem_append.mp hb with h | h
      · exact hpre b h
      · simp only [List.mem_singleton] at h
        rw [h]
        exact hc
    · rw [if_neg hc] at ha
      have hfx : C.find? (fun b => b.category == x.category) = some x := by
        rw [hC, List.find?_append]
        have hprenone : pre.find? (fun b => b.category == x.category) = none := by
          rw [List.find?_eq_none]
          intro b hb
          intro hbeq
          have hbc : b.category = x.category := by simpa using hbeq
          exact hc (hbc ▸ hpre b hb)
        rw [hprenone,
          find?_cons_pos (fun b => b.category == x.category) x rest (by simp)]
        rfl
      have hsel2 : ∀ a ∈ sel ++ [x],
          C.find? (fun b => b.category == a.category) = some a := by
        intro b hb
        rcases List.mem_append.mp hb with h | h
        · exact hsel b h
        · simp only [List.mem_singleton] at h
          rw [h]
          exact hfx
      by_cases hcount : count ≤ sel.length + 1
      · rw [if_pos hcount] at ha
        exact hsel2 a ha
      · rw [if_neg hcount] at ha
        refine ih (x.category :: used) (sel ++ [x]) (pre ++ [x]) (by rw [hC]; simp) ?_
          hsel2 a ha
        intro b hb
        rcases List.mem_append.mp hb with h | h
        · exact List.mem_cons_of_mem _ (hpre b h)
        · simp only [List.mem_singleton] at h
          rw [h]
          exact List.mem_cons_self ..

/-! ## Candidate-count and diversity lemmas (C3, C4) -/

theorem newCats_eq_card (l : List Article) :
    ∀ used : List String,
      newCats l used
        = ((l.map (fun a => a.category)).toFinset.filter (fun c => c ∉ used)).card := by
  induction l with
  | nil =>
    intro used
    simp [newCats]
  | cons a l ih =>
    intro used
    simp only [newCats, List.map_cons, List.toFinset_cons]
    by_cases hc : a.category ∈ used
    · rw [if_pos hc, Finset.filter_insert, if_neg (not_not_intro hc), ih]
    · rw [if_neg hc, Finset.filter_insert, if_pos hc]
      rw [ih (a.category :: used)]
      have hins : insert a.category
            ((l.map (fun a => a.category)).toFinset.filter (fun c => c ∉ used))
          = insert a.category
            ((l.map (fun a => a.category)).toFinset.filter
              (fun c => c ∉ a.category :: used)) := by
        ext x
        simp only [Finset.mem_insert, Finset.mem_filter, List.mem_cons]
        constructor
        · rintro (h | ⟨hx, hnu⟩)
          · exact Or.inl h
          · by_cases hxc : x = a.category
            · exact Or.inl hxc
            · exact Or.inr ⟨hx, fun hor => hor.elim hxc hnu⟩
        · rintro (h | ⟨hx, hnu⟩)
          · exact Or.inl h
          · exact Or.inr ⟨hx, fun hu => hnu (Or.inr hu)⟩
      rw [hins, Finset.card_insert_of_not_mem (by simp)]
      omega

theorem newCats_nil_eq_card (l : List Article) :
    newCats l [] = (l.map (fun a => a.category)).toFinset.card := by
  rw [newCats_eq_card]
  congr 1
  apply Finset.filter_true_of_mem
  intro x _
  simp

theorem length_filter_not_mem (cand sel : List Article)
    (hc : cand.Nodup) (hs : sel.Nodup) (hsub : ∀ x ∈ sel, x ∈ cand) :
    (cand.filter (fun a => !(decide (a ∈ sel)))).length = cand.length - sel.length := by
  have hfn : (cand.filter (fun a => !(decide (a ∈ sel)))).Nodup := hc.filter _
  have h1 : (cand.filter (fun a => !(decide (a ∈ sel)))).length
      = (cand.filter (fun a => !(decide (a ∈ sel)))).toFinset.card :=
    (List.toFinset_card_of_nodup hfn).symm
  rw [h1]
  have hset : (cand.filter (fun a => !(decide (a ∈ sel)))).toFinset
      = cand.toFinset \ sel.toFinset := by
    ext x
    simp [List.mem_toFinset, List.mem_filter]
  rw [hset, Finset.card_sdiff]
  · rw [List.toFinset_card_of_nodup hc, List.toFinset_card_of_nodup hs]
  · intro x hx
    simp only [List.mem_toFinset] at hx ⊢
    exact hsub x hx

theorem select_diverse_all (cand : List Article) (count : Nat)
    (h : cand.length ≤ count) : select_diverse_stories cand count = cand := by
  simp only [select_diverse_stories]
  rw [if_pos h]

theorem select_diverse_length (cand : List Article) (count : Nat)
    (hn : cand.Nodup) (h1 : 1 ≤ count) (hlt : count < cand.length) :
    (select_diverse_stories cand count).length = count := by
  simp only [select_diverse_stories]
  rw [if_neg (by omega)]
  have hsel_le : (pass1 count cand [] []).length ≤ count :=
    pass1_length_le count cand [] [] (by simpa using h1)
  have hsub : ∀ x ∈ pass1 count cand [] [], x ∈ cand := by
    intro x hx
    rcases pass1_subset count cand [] [] x hx with h | h
    · cases h
    · exact h
  have hcat_nodup : ((pass1 count cand [] []).map (fun a => a.category)).Nodup :=
    pass1_cats_nodup count cand [] [] (by simp) (by simp)
  have hsel_nodup : (pass1 count cand [] []).Nodup := hcat_nodup.of_map
  have hrem := length_filter_not_mem cand (pass1 count cand [] []) hn hsel_nodup hsub
  simp only [List.length_append, List.length_take, sortPr_length, hrem]
  omega

theorem fetchCandidates_nodup (s : List Article) (now hours : Int) (hs : s.Nodup) :
    (fetchCandidates s now hours).Nodup := by
  rw [fetchCandidates]
  have hsorted : (sortRanked (eligibleRows s now hours)).Nodup :=
    ((sortRanked_perm _).nodup_iff).mpr (hs.filter _)
  exact List.Nodup.sublist (List.take_sublist _ _) hsorted

theorem effectiveCandidates_of_ne (s : List Article) (now hours : Int)
    (hne : fetchCandidates s now hours ≠ []) :
    effectiveCandidates s now hours = fetchCandidates s now hours := by
  rw [effectiveCandidates, if_neg]
  simpa [List.isEmpty_iff] using hne

/-- COUNTEREXAMPLE to C3 as stated: 51 eligible rows.  With N = 51 the
eligible count equals N, yet the Selector returns only 50 rows (the query
carries `LIMIT 50`), violating both halves of the claim; with N = 0 and 51
eligible rows it returns 1 story, not 0 (the diversity pass checks the target
only after appending). -/
theorem claim_C3_counterexample :
    (eligibleRows storeC3 100 24).length = 51 ∧
    (get_top_stories storeC3 100 51 24).1.length = 50 ∧
    (get_top_stories storeC3 100 0 24).1.length = 1 :=
  ⟨by decide, by decide, by decide⟩

/-- CLAIM C3 (amended): for a store with distinct row ids (the schema's
primary key), writing e for the number of eligible candidates in the given
window: if e ≥ N and 1 ≤ N ≤ 50 the Selector returns exactly N results, and
if 1 ≤ e ≤ min(N, 50) it returns exactly the eligible candidates, in rank
order.  (The candidate query is capped at 50 rows, and a target of 0 can
return one story, so the bounds on N and e are necessary.) -/
theorem claim_C3 (s : List Article) (now hours : Int) (N : Nat)
    (hids : (s.map (fun a => a.id)).Nodup) :
    (N ≤ (eligibleRows s now hours).length → 1 ≤ N → N ≤ 50 →
      (get_top_stories s now N hours).1.length = N) ∧
    (1 ≤ (eligibleRows s now hours).length → (eligibleRows s now hours).length ≤ N →
      (eligibleRows s now hours).length ≤ 50 →
      (get_top_stories s now N hours).1 = sortRanked (eligibleRows s now hours)) := by
  have hs : s.Nodup := hids.of_map
  constructor
  · intro hN h1 h50
    have hflen := fetchCandidates_length s now hours
    have hfne : fetchCandidates s now hours ≠ [] := by
      intro hnil
      rw [hnil] at hflen
      simp only [List.length_nil] at hflen
      omega
    have heff := effectiveCandidates_of_ne s now hours hfne
    show (select_diverse_stories (effectiveCandidates s now hours) N).length = N
    rw [heff]
    by_cases hle : (fetchCandidates s now hours).length ≤ N
    · have hlen : (fetchCandidates s now hours).length = N := by omega
      rw [select_diverse_all _ _ hle]
      exact hlen
    · exact select_diverse_length _ N (fetchCandidates_nodup s now hours hs) h1 (by omega)
  · intro he1 heN he50
    have hsort_len : (sortRanked (eligibleRows s now hours)).length
        = (eligibleRows s now hours).length := sortRanked_length _
    have htake : fetchCandidates s now hours = sortRanked (eligibleRows s now hours) := by
      rw [fetchCandidates]
      apply List.take_of_length_le
      omega
    have hfne : fetchCandidates s now hours ≠ [] := by
      rw [htake]
      intro hnil
      rw [hnil] at hsort_len
      simp only [List.length_nil] at hsort_len
      omega
    show select_diverse_stories (effectiveCandidates s now hours) N
        = sortRanked (eligibleRows s now hours)
    rw [effectiveCandidates_of_ne s now hours hfne, htake, select_diverse_all]
    omega

/-- Witness for C3: two eligible rows; N = 1 yields exactly one story, and
N = 2 yields both rows in rank order. -/
theorem claim_C3_witness :
    (get_top_stories storeW 100 1 24).1.length = 1 ∧
    (get_top_stories storeW 100 2 24).1 = sortRanked (eligibleRows storeW 100 24) :=
  ⟨(claim_C3 storeW 100 24 1 (by decide)).1 (by decide) (by decide) (by decide),
   (claim_C3 storeW 100 24 2 (by decide)).2 (by decide) (by decide) (by decide)⟩

theorem nodup_of_toFinset_card_eq (l : List String)
    (h : l.toFinset.card = l.length) : l.Nodup := by
  have hd : l.dedup.length = l.length := by
    rw [← List.card_toFinset]
    exact h
  have heq : l.dedup = l := (List.dedup_sublist l).eq_of_length hd
  rw [← heq]
  exact List.nodup_dedup l

theorem find_self_of_cats_nodup (l : List Article)
    (h : (l.map (fun a => a.category)).Nodup) :
    ∀ a ∈ l, l.find? (fun b => b.category == a.category) = some a := by
  induction l with
  | nil =>
    intro a ha
    cases ha
  | cons x l ih =>
    intro a ha
    have hx : x.category ∉ l.map (fun a => a.category) :=
      (List.nodup_cons.mp (by simpa using h)).1
    have hl : (l.map (fun a => a.category)).Nodup :=
      (List.nodup_cons.mp (by simpa using h)).2
    rcases List.mem_cons.mp ha with rfl | hmem
    · exact find?_cons_pos (fun b => b.category == a.category) a l (by simp)
    · have hxne : ((fun b : Article => b.category == a.category) x) = false := by
        rw [beq_eq_false_iff_ne]
        intro heq
        exact hx (heq ▸ List.mem_map_of_mem _ hmem)
      rw [find?_cons_neg (fun b => b.category == a.category) x l hxne]
      exact ih hl a hmem

theorem select_diverse_cats (cand : List Article) (count : Nat)
    (hcats : count ≤ (cand.map (fun a => a.category)).toFinset.card) :
    ((select_diverse_stories cand count).map (fun a => a.category)).Nodup ∧
    ∀ a ∈ select_diverse_stories cand count,
      cand.find? (fun b => b.category == a.category) = some a := by
  by_cases hle : cand.length ≤ count
  · rw [select_diverse_all cand count hle]
    have hcard_le : (cand.map (fun a => a.category)).toFinset.card
        ≤ (cand.map (fun a => a.category)).length := List.toFinset_card_le _
    have hlen : (cand.map (fun a => a.category)).length = cand.length :=
      List.length_map ..
    have heq : (cand.map (fun a => a.category)).toFinset.card
        = (cand.map (fun a => a.category)).length := by omega
    have hnodup : (cand.map (fun a => a.category)).Nodup :=
      nodup_of_toFinset_card_eq _ heq
    exact ⟨hnodup, find_self_of_cats_nodup cand hnodup⟩
  · rcases Nat.eq_zero_or_pos count with rfl | hpos
    · cases cand with
      | nil => simp at hle
      | cons x cs =>
        have hsel : select_diverse_stories (x :: cs) 0 = [x] := by
          simp only [select_diverse_stories]
          rw [if_neg hle]
          simp [pass1]
        rw [hsel]
        refine ⟨by simp, ?_⟩
        intro a ha
        simp only [List.mem_singleton] at ha
        rw [ha]
        exact find?_cons_pos (fun b => b.category == x.category) x cs (by simp)
    · have hk : (pass1 count cand [] []).length = count := by
        apply pass1_length_eq count cand [] [] (by simpa using hpos)
        rw [newCats_nil_eq_card]
        simpa using hcats
      have hout : select_diverse_stories cand count = pass1 count cand [] [] := by
        simp only [select_diverse_stories]
        rw [if_neg hle, hk]
        simp
      rw [hout]
      refine ⟨pass1_cats_nodup count cand [] [] (by simp) (by simp), ?_⟩
      exact pass1_first count cand cand ([] : List String) ([] : List Article)
        ([] : List Article) (by simp) (by simp) (by simp)

/-- COUNTEREXAMPLE to C4 as stated: the eligible candidates span two distinct
categories (50 Politics rows and one low-ranked Sports row) and N = 2, yet
the Selector's output is two Politics stories — the `LIMIT 50` cap drops the
only Sports candidate before the diversity pass runs. -/
theorem claim_C4_counterexample :
    ((eligibleRows storeC4 100 24).map (fun a => a.category)).toFinset.card = 2 ∧
    (get_top_stories storeC4 100 2 24).1.map (fun a => a.category)
      = ["Politics", "Politics"] :=
  ⟨by decide, by decide⟩

/-- CLAIM C4 (amended): if N is at most the number of distinct categories
among the *fetched* candidates (the at-most-50 rows the capped query
returns, after the empty-window retry), then the Selector's output contains
no two articles of the same category, and every returned article is the
first (highest-ranked) candidate of its category in rank order. -/
theorem claim_C4 (s : List Article) (now hours : Int) (N : Nat)
    (hcats : N ≤ ((effectiveCandidates s now hours).map (fun a => a.category)).toFinset.card) :
    (((get_top_stories s now N hours).1.map (fun a => a.category)).Nodup) ∧
    ∀ a ∈ (get_top_stories s now N hours).1,
      (effectiveCandidates s now hours).find? (fun b => b.category == a.category)
        = some a :=
  select_diverse_cats (effectiveCandidates s now hours) N hcats

/-- Witness for C4: two candidates of two distinct categories with N = 2. -/
theorem claim_C4_witness :
    (((get_top_stories storeW 100 2 24).1.map (fun a => a.category)).Nodup) ∧
    ∀ a ∈ (get_top_stories storeW 100 2 24).1,
      (effectiveCandidates storeW 100 24).find? (fun b => b.category == a.category)
        = some a :=
  claim_C4 storeW 100 24 2 (by decide)

/-! ## Selector read/mark race (C9) -/

/-- CLAIM C9 is violated: in `get_top_stories` the candidate read and the
Selected-flag update run on two separate sqlite connections with no
transaction spanning both, so the interleaving read1, read2, mark1, mark2 of
two invocations is possible.  On a store with one eligible article both
interleaved reads see the unmarked store and return the same article —
overlapping selections — whereas a serialized second invocation (reading the
store left by the first) selects nothing. -/
theorem claim_C9 :
    selectorReadPhase storeC9 100 1 24 = [exRow 1 "X" 5 100] ∧
    selectorReadPhase (selectorMarkPhase storeC9 (selectorReadPhase storeC9 100 1 24))
      100 1 24 = [] :=
  ⟨by decide, by decide⟩

/-! ## Scorer (C2) -/

theorem foldl_add_if_eq_countP (w : Nat) (p : String → Bool) (kws : List String) :
    ∀ acc : Nat, kws.foldl (fun s kw => if p kw then s + w else s) acc
      = acc + w * kws.countP p := by
  induction kws with
  | nil => intro acc; simp
  | cons k ks ih =>
    intro acc
    simp only [List.foldl_cons, List.countP_cons]
    by_cases hk : p k = true
    · rw [if_pos hk, if_pos hk, ih (acc + w)]
      ring
    · rw [if_neg hk, if_neg hk, ih acc]
      ring

theorem calculate_priority_foldl (text : List Char) (table : List (List String × Nat)) :
    ∀ acc : Nat,
      table.foldl
        (fun score td =>
          td.1.foldl (fun s kw => if strContains text kw then s + td.2 else s) score) acc
      = acc + (table.map (fun td => td.2 * td.1.countP (fun kw => strContains text kw))).sum := by
  induction table with
  | nil => intro acc; simp
  | cons td tds ih =>
    intro acc
    simp only [List.foldl_cons, List.map_cons, List.sum_cons]
    rw [foldl_add_if_eq_countP, ih]
    ring

theorem countP_le_countP_of_imp (p q : String → Bool) (l : List String)
    (h : ∀ kw ∈ l, p kw = true → q kw = true) : l.countP p ≤ l.countP q := by
  induction l with
  | nil => simp
  | cons k ks ih =>
    have hks : ks.countP p ≤ ks.countP q :=
      ih (fun kw hkw => h kw (List.mem_cons_of_mem k hkw))
    by_cases hk : p k = true
    · have hq := h k (List.mem_cons_self k ks) hk
      simp [List.countP_cons, hk, hq]
      omega
    · simp only [List.countP_cons, hk, if_false]
      by_cases hq : q k = true <;> simp [hq] <;> omega

/-- COUNTEREXAMPLE to C2 as stated: on the title "war war" the tier keyword
"war" occurs twice, so the claim's occurrence-counted score is 20, but the
code adds the tier weight only once per keyword and returns 10. -/
theorem claim_C2_counterexample :
    calculate_priority "war war" "" = 10 ∧
    calculate_priority_occurrences "war war" "" = 20 :=
  ⟨by decide, by decide⟩

/-- CLAIM C2 (amended): the score is the sum over tiers of (tier weight ×
number of that tier's *keywords* contained in the text) — each keyword
counted once however many times it occurs, different keywords counted
independently even under overlap; it is deterministic, bounded by 382 (the
sum of weight × tier size over the configured table), and monotonic: a text
containing at least the keyword hits of another scores at least as much. -/
theorem claim_C2 (t d t2 d2 : String)
    (hmono : ∀ td ∈ PRIORITY_KEYWORDS, ∀ kw ∈ td.1,
      strContains (articleText t d) kw = true → strContains (articleText t2 d2) kw = true) :
    calculate_priority t d =
      (PRIORITY_KEYWORDS.map
        (fun td => td.2 * td.1.countP (fun kw => strContains (articleText t d) kw))).sum ∧
    calculate_priority t d ≤ 382 ∧
    calculate_priority t d ≤ calculate_priority t2 d2 := by
  have hchar : ∀ t3 d3 : String, calculate_priority t3 d3 =
      (PRIORITY_KEYWORDS.map
        (fun td => td.2 * td.1.countP (fun kw => strContains (articleText t3 d3) kw))).sum := by
    intro t3 d3
    rw [calculate_priority, calculate_priority_foldl]
    omega
  refine ⟨hchar t d, ?_, ?_⟩
  · rw [hchar t d]
    simp only [PRIORITY_KEYWORDS, List.map_cons, List.map_nil, List.sum_cons, List.sum_nil]
    have h1 := List.countP_le_length
      (l := (PRIORITY_KEYWORDS.get ⟨0, by decide⟩).1)
      (p := fun kw => strContains (articleText t d) kw)
    have h2 := List.countP_le_length
      (l := (PRIORITY_KEYWORDS.get ⟨1, by decide⟩).1)
      (p := fun kw => strContains (articleText t d) kw)
    have h3 := List.countP_le_length
      (l := (PRIORITY_KEYWORDS.get ⟨2, by decide⟩).1)
      (p := fun kw => strContains (articleText t d) kw)
    simp only [PRIORITY_KEYWORDS, List.get] at h1 h2 h3
    simp only [List.length_cons, List.length_nil] at h1 h2 h3
    omega
  · rw [hchar t d, hchar t2 d2]
    have hmk : ∀ td ∈ PRIORITY_KEYWORDS,
        td.1.countP (fun kw => strContains (articleText t d) kw)
          ≤ td.1.countP (fun kw => strContains (articleText t2 d2) kw) := by
      intro td htd
      exact countP_le_countP_of_imp _ _ td.1 (hmono td htd)
    have m1 := hmk (PRIORITY_KEYWORDS.get ⟨0, by decide⟩) (by decide)
    have m2 := hmk (PRIORITY_KEYWORDS.get ⟨1, by decide⟩) (by decide)
    have m3 := hmk (PRIORITY_KEYWORDS.get ⟨2, by decide⟩) (by decide)
    simp only [PRIORITY_KEYWORDS, List.get] at m1 m2 m3
    simp only [PRIORITY_KEYWORDS, List.map_cons, List.map_nil, List.sum_cons, List.sum_nil]
    omega

/-- Witness for C2: "war" hits a subset of the keywords "war nuclear" hits. -/
theorem claim_C2_witness :
    calculate_priority "war" "" =
      (PRIORITY_KEYWORDS.map
        (fun td => td.2 * td.1.countP (fun kw => strContains (articleText "war" "") kw))).sum ∧
    calculate_priority "war" "" ≤ 382 ∧
    calculate_priority "war" "" ≤ calculate_priority "war nuclear" "" :=
  claim_C2 "war" "" "war nuclear" "" (by decide)

/-! ## Classifier (C8) -/

theorem maxCount_le_of_mem (ls : List (String × Nat)) (q : String × Nat) (hq : q ∈ ls) :
    q.2 ≤ maxCount ls := by
  induction ls with
  | nil => cases hq
  | cons p rest ih =>
    rcases List.mem_cons.mp hq with h | h
    · rw [h, maxCount]
      exact le_max_left ..
    · rw [maxCount]
      exact le_trans (ih h) (le_max_right ..)

theorem maxCount_filter_pos (ls : List (String × Nat)) :
    maxCount (ls.filter (fun p => decide (0 < p.2))) = maxCount ls := by
  induction ls with
  | nil => rfl
  | cons p rest ih =>
    by_cases hp : 0 < p.2
    · rw [List.filter_cons_of_pos (by simpa using hp), maxCount, maxCount, ih]
    · rw [List.filter_cons_of_neg (by simpa using hp), maxCount, ih]
      omega

theorem find?_filter_pos (ls : List (String × Nat)) (M : Nat) (hM : 0 < M) :
    ls.find? (fun p => p.2 == M)
      = (ls.filter (fun p => decide (0 < p.2))).find? (fun p => p.2 == M) := by
  induction ls with
  | nil => rfl
  | cons p rest ih =>
    by_cases hp : 0 < p.2
    · rw [List.filter_cons_of_pos (by simpa using hp)]
      by_cases hpm : (p.2 == M) = true
      · rw [find?_cons_pos (fun p => p.2 == M) p rest hpm,
          find?_cons_pos (fun p => p.2 == M) p (rest.filter (fun p => decide (0 < p.2))) hpm]
      · have hpm2 : (p.2 == M) = false := by
          rw [← Bool.not_eq_true]
          exact hpm
        rw [find?_cons_neg (fun p => p.2 == M) p rest hpm2,
          find?_cons_neg (fun p => p.2 == M) p (rest.filter (fun p => decide (0 < p.2))) hpm2,
          ih]
    · have hp0 : p.2 = 0 := by omega
      have hne : (p.2 == M) = false := by
        rw [beq_eq_false_iff_ne]
        omega
      rw [List.filter_cons_of_neg (by simpa using hp),
        find?_cons_neg (fun p => p.2 == M) p rest hne, ih]

theorem find?_firstMaxFold (rest : List (String × Nat)) :
    ∀ p : String × Nat,
      (p :: rest).find? (fun q => q.2 == maxCount (p :: rest)) = some (firstMaxFold p rest) := by
  induction rest with
  | nil =>
    intro p
    have hself : ((fun q : String × Nat => q.2 == maxCount [p]) p) = true := by
      simp [maxCount]
    rw [find?_cons_pos (fun q => q.2 == maxCount [p]) p [] hself]
    rfl
  | cons q rest ih =>
    intro p
    by_cases hlt : p.2 < q.2
    · have hM : maxCount (p :: q :: rest) = maxCount (q :: rest) := by
        simp only [maxCount]
        omega
      have hfold : firstMaxFold p (q :: rest) = firstMaxFold q rest := by
        simp only [firstMaxFold, List.foldl_cons, if_pos hlt]
      have hq := maxCount_le_of_mem (q :: rest) q (List.mem_cons_self ..)
      have hneg : ((fun x : String × Nat => x.2 == maxCount (q :: rest)) p) = false := by
        rw [beq_eq_false_iff_ne]
        omega
      rw [hfold, hM, find?_cons_neg (fun x => x.2 == maxCount (q :: rest)) p (q :: rest) hneg,
        ih q]
    · have hM : maxCount (p :: q :: rest) = maxCount (p :: rest) := by
        simp only [maxCount]
        omega
      have hfold : firstMaxFold p (q :: rest) = firstMaxFold p rest := by
        simp only [firstMaxFold, List.foldl_cons, if_neg hlt]
      rw [hfold, hM]
      by_cases hpm : (p.2 == maxCount (p :: rest)) = true
      · rw [find?_cons_pos (fun x => x.2 == maxCount (p :: rest)) p (q :: rest) hpm]
        have h2 := ih p
        rw [find?_cons_pos (fun x => x.2 == maxCount (p :: rest)) p rest hpm] at h2
        exact h2
      · have hpm2 : (p.2 == maxCount (p :: rest)) = false := by
          rw [← Bool.not_eq_true]
          exact hpm
        have hple := maxCount_le_of_mem (p :: rest) p (List.mem_cons_self ..)
        have hplt : p.2 < maxCount (p :: rest) := by
          have := beq_eq_false_iff_ne.mp hpm2
          omega
        have hqM : (q.2 == maxCount (p :: rest)) = false := by
          rw [beq_eq_false_iff_ne]
          omega
        rw [find?_cons_neg (fun x => x.2 == maxCount (p :: rest)) p (q :: rest) hpm2,
          find?_cons_neg (fun x => x.2 == maxCount (p :: rest)) q rest hqM]
        have h2 := ih p
        rw [find?_cons_neg (fun x => x.2 == maxCount (p :: rest)) p rest hpm2] at h2
        exact h2

/-- CLAIM C8: the classifier returns the configured category with the highest
count of its keyword substrings present in the text (case-insensitive), ties
broken by earliest declaration order, and "General" when nothing matches —
stated as equality with `classifierSpec`, the direct transcription of the
spec's words; determinism is immediate since both are functions of the text
and the fixed configuration. -/
theorem claim_C8 (t d : String) : detect_category t d = classifierSpec t d := by
  simp only [detect_category, classifierSpec]
  cases hfil : (CATEGORY_KEYWORDS.map
      (fun ck => (ck.1, categoryHits ck.2 (articleText t d)))).filter
      (fun p => decide (0 < p.2)) with
  | nil =>
    have hm : maxCount (CATEGORY_KEYWORDS.map
        (fun ck => (ck.1, categoryHits ck.2 (articleText t d)))) = 0 := by
      rw [← maxCount_filter_pos, hfil]
      rfl
    rw [hm]
    simp
  | cons p rest =>
    have hm : maxCount (CATEGORY_KEYWORDS.map
        (fun ck => (ck.1, categoryHits ck.2 (articleText t d)))) = maxCount (p :: rest) := by
      rw [← maxCount_filter_pos, hfil]
    have hMpos : 0 < maxCount (CATEGORY_KEYWORDS.map
        (fun ck => (ck.1, categoryHits ck.2 (articleText t d)))) := by
      have hmem : p ∈ (CATEGORY_KEYWORDS.map
          (fun ck => (ck.1, categoryHits ck.2 (articleText t d)))).filter
          (fun p => decide (0 < p.2)) := by
        rw [hfil]
        exact List.mem_cons_self ..
      have hppos : 0 < p.2 := by simpa using (List.mem_filter.mp hmem).2
      have := maxCount_le_of_mem (p :: rest) p (List.mem_cons_self ..)
      omega
    rw [if_neg (by omega)]
    rw [find?_filter_pos _ _ hMpos, hfil, hm, find?_firstMaxFold rest p]

/-- Witness for C7: the empty store is empty in every window. -/
theorem claim_C7_witness :
    (get_top_stories [] 0 5 24).1 = select_diverse_stories (fetchCandidates [] 0 48) 5 ∧
    (get_top_stories [] 0 5 24).1 = [] ∧ (get_top_stories [] 0 5 24).2 = [] :=
  ⟨(claim_C7 [] 0 5 24 (by decide)).1,
   ((claim_C7 [] 0 5 24 (by decide)).2 (by decide)).1,
   ((claim_C7 [] 0 5 24 (by decide)).2 (by decide)).2⟩
